import Mathlib

/-!
Verification of the boot-time memory subsystem of the RustKernel repository.

The definitions below are a shallow embedding of the Rust sources:
  * `kernel_api/common/src/efi.rs`  — `MemoryType`, `MemoryType::is_usable`,
    `MemoryDescriptor`, `MemoryMap`, `get_memory_map`;
  * `kernel_api/common/src/mem.rs`  — `PageTableFrameAllocator::new`,
    `FrameAllocator::allocate_frame`, `PageTableFrameAllocator::allocate_size`;
  * `src/main.rs` (`efi_main`)      — the address-space bootstrap sequence
    (clone of the level-4 table, `Cr3::write`, `KERNEL_MAP` store).

Machine integers (`usize`, `u64`) are modelled as `Nat`; none of the
properties proved here depend on wrap-around behaviour.  Physical frames are
modelled by their start addresses.  The iterator chain built in
`PageTableFrameAllocator::new` (filter usable → map to physical range →
flat-map `step_by(4096)` → map `PhysFrame::containing_address`) is embedded
as the eager list `usableFrames`, and the allocator state keeps the not yet
consumed tail of that list, which is exactly the information the lazy Rust
iterator carries.
-/

namespace RustKernel

/-- The firmware memory-type enumeration from `efi.rs` (`enum MemoryType`). -/
inductive MemoryType where
  | Reserved
  | LoaderCode
  | LoaderData
  | BootServicesCode
  | BootServicesData
  | RuntimeServicesCode
  | RuntimeServicesData
  | Conventional
  | Unusable
  | ACPIReclaim
  | ACPINVS
  | MemoryMappedIO
  | MemoryMappedIOPortSpace
  | PalCode
  | PersistentMemory
  | MaxMemoryType
deriving DecidableEq

/-- `MemoryType::is_usable` from `efi.rs`: only `BootServicesCode` and
`Conventional` are usable (the `BootServicesData` and `PersistentMemory`
arms are commented out in the source). -/
def MemoryType.is_usable (t : MemoryType) : Bool :=
  match t with
  | .BootServicesCode
  | .Conventional => true
  | _ => false

/-- `MemoryDescriptor` from `efi.rs`: one firmware-reported physical region.
`size` counts 4096-byte units. -/
structure MemoryDescriptor where
  memory_type : MemoryType
  physical_address : Nat
  virtual_address : Nat
  size : Nat
  attributes : Nat
  r1 : Nat
deriving DecidableEq

/-- `MemoryMap` from `efi.rs`: a slice of descriptors, modelled as a list. -/
abbrev MemoryMap := List MemoryDescriptor

/-- `PhysFrame::containing_address`: the 4096-aligned start address of the
frame containing `addr`. -/
def containing_address (addr : Nat) : Nat := 4096 * (addr / 4096)

/-- Rust `(lo..hi).step_by(4096)`: the addresses `lo, lo+4096, …` strictly
below `hi`.  The count is `⌈(hi-lo)/4096⌉` (truncated subtraction makes the
list empty when `hi ≤ lo`, as for a Rust `Range`). -/
def stepBy4096 (lo hi : Nat) : List Nat :=
  (List.range ((hi - lo + 4095) / 4096)).map (fun k => lo + 4096 * k)

/-- The address stream built in `PageTableFrameAllocator::new`: filter the
usable descriptors, map each to its physical range
`physical_address .. physical_address + size * 4096`, flat-map
`step_by(4096)`, and map `PhysFrame::containing_address`. -/
def usableFrames (m : MemoryMap) : List Nat :=
  ((((m.filter (fun d => d.memory_type.is_usable)).map
      (fun u => (u.physical_address, u.physical_address + u.size * 4096))).flatMap
      (fun r => stepBy4096 r.1 r.2)).map
      (fun addr => containing_address addr))

/-- `PageTableFrameAllocator` from `mem.rs`.  The `addresses` field holds the
not yet consumed tail of the iterator built in `new`; `next` is the (never
used) cursor field of the Rust struct. -/
structure PageTableFrameAllocator where
  memory_map : MemoryMap
  next : Nat
  addresses : List Nat
deriving DecidableEq

/-- `PageTableFrameAllocator::new`. -/
def PageTableFrameAllocator.new (m : MemoryMap) : PageTableFrameAllocator :=
  { memory_map := m, next := 0, addresses := usableFrames m }

/-- `FrameAllocator::allocate_frame` (`self.addresses.next()`): pop the next
address off the stream.  Returns the yielded frame and the updated
allocator. -/
def allocate_frame (a : PageTableFrameAllocator) :
    Option Nat × PageTableFrameAllocator :=
  match a.addresses with
  | [] => (none, a)
  | f :: rest => (some f, { a with addresses := rest })

/-- The `for i in 0..n` loop body of `allocate_size`: draw `k` more frames;
`first` records whether the `i == 0` iteration is still to come, `ret` is the
current value of `ret_frame`.  Any failed draw aborts with `none` (the Rust
`return None`). -/
def allocLoop (a : PageTableFrameAllocator) (k : Nat) (first : Bool) (ret : Nat) :
    Option Nat × PageTableFrameAllocator :=
  match k with
  | 0 => (some ret, a)
  | Nat.succ k2 =>
    match allocate_frame a with
    | (some f, a2) => allocLoop a2 k2 false (if first then f else ret)
    | (none, a2) => (none, a2)

/-- `PageTableFrameAllocator::allocate_size`: `n = size / 4096` (integer
division), `ret_frame` starts as the frame containing address 0, the loop
draws `n` frames keeping the first, and on success the result is
`Some (ret_frame, n)`. -/
def allocate_size (a : PageTableFrameAllocator) (size : Nat) :
    Option (Nat × Nat) × PageTableFrameAllocator :=
  match allocLoop a (size / 4096) true (containing_address 0) with
  | (some ret, a2) => (some (ret, size / 4096), a2)
  | (none, a2) => (none, a2)

/-- Apply `allocate_frame` `k` times, keeping only the final allocator
state. -/
def drain (a : PageTableFrameAllocator) (k : Nat) : PageTableFrameAllocator :=
  match k with
  | 0 => a
  | Nat.succ k2 => drain (allocate_frame a).2 k2

/-- The sequence of frames produced by `k` successive `allocate_frame`
calls, cut short at the first `none`. -/
def frameSeq (a : PageTableFrameAllocator) (k : Nat) : List Nat :=
  match k with
  | 0 => []
  | Nat.succ k2 =>
    match allocate_frame a with
    | (some f, a2) => f :: frameSeq a2 k2
    | (none, _) => []

/-- Total number of usable bytes reported by a memory map: the sum of
`size * 4096` over the usable descriptors (the quantity the spec calls
`S`). -/
def totalUsableBytes (m : MemoryMap) : Nat :=
  ((m.filter (fun d => d.memory_type.is_usable)).map (fun d => d.size * 4096)).sum

/-- Two descriptors describe disjoint physical ranges: no address lies in
both half-open ranges `[address, address + size*4096)`. -/
def rangesDisjoint (d e : MemoryDescriptor) : Prop :=
  ∀ x : Nat, ¬ (d.physical_address ≤ x ∧ x < d.physical_address + d.size * 4096 ∧
      e.physical_address ≤ x ∧ x < e.physical_address + e.size * 4096)

/-- Model of the firmware environment seen by `get_memory_map` in `efi.rs`:
the status, snapshot, map key, descriptor size and descriptor version the
`get_memory_map` boot-services entry reports for the fixed-capacity static
`DESCRIPTORS` buffer (a too-small buffer surfaces as a non-zero status), and
the status the `exit_boot_services` entry returns for a given
(image handle, map key) pair. -/
structure Firmware where
  getMemoryMapStatus : Nat
  descriptors : MemoryMap
  mapKey : Nat
  descriptorSize : Nat
  descriptorVersion : Nat
  exitBootServicesStatus : Nat → Nat → Nat

/-- A call made to a firmware boot-services entry point, with its
arguments. -/
inductive FirmwareCall where
  | getMemoryMapCall
  | exitBootServicesCall (image_handle : Nat) (map_key : Nat)
deriving DecidableEq

/-- `get_memory_map` from `efi.rs`: fetch the map into the static buffer,
`assert!` the status is zero, call `exit_boot_services(image_handle, key)`
with the key from that same fetch, `assert!` again, and return the snapshot
with the descriptor version.  A failed `assert!` (panic) is modelled as
`none`; the second component is the trace of firmware calls made, in
order. -/
def get_memory_map (fw : Firmware) (image_handle : Nat) :
    Option (MemoryMap × Nat) × List FirmwareCall :=
  if fw.getMemoryMapStatus = 0 then
    if fw.exitBootServicesStatus image_handle fw.mapKey = 0 then
      (some (fw.descriptors, fw.descriptorVersion),
       [FirmwareCall.getMemoryMapCall,
        FirmwareCall.exitBootServicesCall image_handle fw.mapKey])
    else
      (none,
       [FirmwareCall.getMemoryMapCall,
        FirmwareCall.exitBootServicesCall image_handle fw.mapKey])
  else
    (none, [FirmwareCall.getMemoryMapCall])

/-- A level-4 (root) page table: 512 entries. -/
structure PageTable512 where
  entries : Fin 512 → Nat

/-- The machine state touched by the address-space bootstrap in `efi_main`
(`main.rs`): the control register `CR3`, the physical tables, and the
`KERNEL_MAP` slot from `mem.rs`. -/
structure MachineState where
  cr3 : Nat
  tables : Nat → PageTable512
  kernel_map : Nat

/-- The address-space bootstrap sequence of `efi_main` (`main.rs`):
`mapper.level_4_table().clone()` copies the 512 entries of the active root
table into a fresh exclusively-owned table `npt` (its address, a stack slot,
is the parameter `newAddr`); `Cr3::write` installs that address in the
control register; `mem::KERNEL_MAP = table as u64` records the same
address.  No other table is touched: lower-level tables stay shared. -/
def bootstrap_address_space (s : MachineState) (newAddr : Nat) : MachineState :=
  let npt : PageTable512 := ⟨(s.tables s.cr3).entries⟩
  { cr3 := newAddr,
    tables := fun a => if a = newAddr then npt else s.tables a,
    kernel_map := newAddr }

/-- A one-descriptor memory map used to instantiate universally quantified
theorems: a single Conventional region of two pages at `0x1000`. -/
def oneRegionMap : MemoryMap :=
  [⟨MemoryType.Conventional, 4096, 0, 2, 0, 0⟩]

/-- A two-descriptor memory map whose usable regions are not physically
contiguous: one page at `0x1000` and one page at `0x5000`. -/
def twoRegionMap : MemoryMap :=
  [⟨MemoryType.Conventional, 4096, 0, 1, 0, 0⟩,
   ⟨MemoryType.Conventional, 20480, 0, 1, 0, 0⟩]

/-- A firmware environment in which both firmware calls succeed. -/
def fwOk : Firmware :=
  { getMemoryMapStatus := 0,
    descriptors := oneRegionMap,
    mapKey := 42,
    descriptorSize := 48,
    descriptorVersion := 1,
    exitBootServicesStatus := fun _ _ => 0 }

/-- A concrete machine state used to instantiate the bootstrap theorem. -/
def machineW : MachineState :=
  { cr3 := 4096,
    tables := fun a => ⟨fun i => a + i.val⟩,
    kernel_map := 0 }

/-! Helper lemmas about the embedded definitions. -/

/-- The frames one usable descriptor contributes: `size` consecutive frame
indices starting at the frame containing its physical address. -/
lemma frames_of_desc (a s : Nat) :
    (stepBy4096 a (a + s * 4096)).map containing_address =
      (List.range s).map (fun k => 4096 * (a / 4096 + k)) := by
  unfold stepBy4096
  have h1 : (a + s * 4096 - a + 4095) / 4096 = s := by
    rw [Nat.add_sub_cancel_left]
    omega
  rw [h1, List.map_map]
  congr 1
  funext k
  show containing_address (a + 4096 * k) = 4096 * (a / 4096 + k)
  unfold containing_address
  rw [Nat.add_mul_div_left _ _ (by norm_num : 0 < 4096)]

/-- The allocator's address stream, rewritten as a flat-map of per-descriptor
frame lists. -/
lemma usableFrames_eq (m : MemoryMap) :
    usableFrames m = (m.filter (fun d => d.memory_type.is_usable)).flatMap
      (fun d => (List.range d.size).map
        (fun k => 4096 * (d.physical_address / 4096 + k))) := by
  unfold usableFrames
  rw [List.flatMap_map, List.map_flatMap]
  congr 1
  funext d
  exact frames_of_desc d.physical_address d.size

lemma sum_map_mul4096 (l : List MemoryDescriptor) :
    (l.map (fun d => d.size * 4096)).sum = (l.map (fun d => d.size)).sum * 4096 := by
  induction l with
  | nil => rfl
  | cons d l ih => simp [ih, Nat.add_mul]

/-- The stream length is the total usable page count. -/
lemma usableFrames_length (m : MemoryMap) :
    (usableFrames m).length * 4096 = totalUsableBytes m := by
  rw [usableFrames_eq, List.length_flatMap]
  simp only [Function.comp_def, List.length_map, List.length_range]
  rw [totalUsableBytes, sum_map_mul4096]

lemma drain_eq (k : Nat) : ∀ a : PageTableFrameAllocator,
    drain a k = { a with addresses := a.addresses.drop k } := by
  induction k with
  | zero => intro a; rfl
  | succ k2 ih =>
    intro a
    obtain ⟨mm, nx, ad⟩ := a
    cases ad with
    | nil => simp [drain, allocate_frame, ih]
    | cons f rest => simp [drain, allocate_frame, ih]

lemma frameSeq_eq (k : Nat) : ∀ a : PageTableFrameAllocator,
    frameSeq a k = a.addresses.take k := by
  induction k with
  | zero => intro a; rfl
  | succ k2 ih =>
    intro a
    obtain ⟨mm, nx, ad⟩ := a
    cases ad with
    | nil => simp [frameSeq, allocate_frame]
    | cons f rest => simp [frameSeq, allocate_frame, ih]

lemma allocLoop_short (k : Nat) : ∀ (a : PageTableFrameAllocator) (first : Bool)
    (ret : Nat), a.addresses.length < k → (allocLoop a k first ret).1 = none := by
  induction k with
  | zero => intro a first ret h; exact absurd h (Nat.not_lt_zero _)
  | succ k2 ih =>
    intro a first ret h
    obtain ⟨mm, nx, ad⟩ := a
    cases ad with
    | nil => simp [allocLoop, allocate_frame]
    | cons f rest =>
      simp only [allocLoop, allocate_frame]
      apply ih
      simp only [List.length_cons] at h
      show rest.length < k2
      omega

lemma allocLoop_false (k : Nat) : ∀ (a : PageTableFrameAllocator) (ret : Nat),
    k ≤ a.addresses.length →
    allocLoop a k false ret = (some ret, { a with addresses := a.addresses.drop k }) := by
  induction k with
  | zero => intro a ret _; rfl
  | succ k2 ih =>
    intro a ret h
    obtain ⟨mm, nx, ad⟩ := a
    cases ad with
    | nil => simp at h
    | cons f rest =>
      simp only [allocLoop, allocate_frame]
      rw [ih]
      · rfl
      · simp only [List.length_cons] at h
        show k2 ≤ rest.length
        omega

lemma allocLoop_first (k : Nat) (a : PageTableFrameAllocator) (ret : Nat)
    (h1 : 1 ≤ k) (h2 : k ≤ a.addresses.length) :
    ∃ F tl, a.addresses = F :: tl ∧
      allocLoop a k true ret = (some F, { a with addresses := a.addresses.drop k }) := by
  obtain ⟨mm, nx, ad⟩ := a
  cases k with
  | zero => exact absurd h1 (by omega)
  | succ k2 =>
    cases ad with
    | nil => simp at h2
    | cons F tl =>
      refine ⟨F, tl, rfl, ?_⟩
      simp only [allocLoop, allocate_frame, if_pos]
      rw [allocLoop_false]
      · rfl
      · simp only [List.length_cons] at h2
        show k2 ≤ tl.length
        omega

/-- `allocate_size` fails exactly when fewer than `size / 4096` frames
remain. -/
lemma allocate_size_short (a : PageTableFrameAllocator) (size : Nat)
    (h : a.addresses.length < size / 4096) : (allocate_size a size).1 = none := by
  unfold allocate_size
  have hn := allocLoop_short (size / 4096) a true (containing_address 0) h
  rcases hl : allocLoop a (size / 4096) true (containing_address 0) with ⟨o, a2⟩
  rw [hl] at hn
  simp only at hn
  subst hn
  rfl

/-- `allocate_size` on a sufficient pool: the result is the first of the
drawn frames (the placeholder frame 0 when the count is zero), the count is
`size / 4096`, and exactly those frames are consumed. -/
lemma allocate_size_enough (a : PageTableFrameAllocator) (size : Nat)
    (h : size / 4096 ≤ a.addresses.length) :
    allocate_size a size =
      (some ((frameSeq a (size / 4096)).headD (containing_address 0), size / 4096),
       drain a (size / 4096)) := by
  unfold allocate_size
  cases hn : size / 4096 with
  | zero =>
    rw [drain_eq]
    simp [allocLoop, frameSeq]
  | succ k2 =>
    rw [hn] at h
    obtain ⟨F, tl, ha, hl⟩ := allocLoop_first (k2 + 1) a (containing_address 0)
      (by omega) h
    rw [hl, drain_eq, frameSeq_eq, ha]
    simp

/-- Disjoint nonempty half-open intervals are ordered. -/
lemma disjoint_ordered {a s b t : Nat}
    (h : ∀ x : Nat, ¬ (a ≤ x ∧ x < a + s * 4096 ∧ b ≤ x ∧ x < b + t * 4096))
    (hs : 0 < s) (ht : 0 < t) :
    a + s * 4096 ≤ b ∨ b + t * 4096 ≤ a := by
  by_contra hc
  push_neg at hc
  rcases Nat.le_total a b with hab | hab
  · exact h b ⟨hab, by omega, Nat.le_refl b, by omega⟩
  · exact h a ⟨Nat.le_refl a, by omega, hab, by omega⟩

/-! The claims. -/

/-- C1: for every memory map whose usable descriptors describe
pairwise-disjoint physical ranges, the sequence of frames the allocator
built by `PageTableFrameAllocator::new` yields contains no duplicates, so
no two `next_frame` calls on one instance return the same address. -/
theorem no_frame_twice (m : MemoryMap)
    (hdisj : (m.filter (fun d => d.memory_type.is_usable)).Pairwise rangesDisjoint) :
    (PageTableFrameAllocator.new m).addresses.Nodup := by
  show (usableFrames m).Nodup
  rw [usableFrames_eq, List.nodup_flatMap]
  constructor
  · intro d _
    refine List.Nodup.map ?_ (List.nodup_range d.size)
    intro k1 k2 hk
    have hk2 : 4096 * (d.physical_address / 4096 + k1) =
        4096 * (d.physical_address / 4096 + k2) := hk
    omega
  · refine List.Pairwise.imp ?_ hdisj
    intro d e hde x hxd hxe
    obtain ⟨k1, hk1, hx1⟩ := List.mem_map.1 hxd
    obtain ⟨k2, hk2, hx2⟩ := List.mem_map.1 hxe
    rw [List.mem_range] at hk1 hk2
    have hde2 : ∀ y : Nat, ¬ (d.physical_address ≤ y ∧
        y < d.physical_address + d.size * 4096 ∧
        e.physical_address ≤ y ∧ y < e.physical_address + e.size * 4096) := hde
    rcases disjoint_ordered hde2 (by omega) (by omega) with hord | hord <;> omega

/-- C1 witness: a concrete map with one usable descriptor. -/
theorem no_frame_twice_witness :
    (PageTableFrameAllocator.new oneRegionMap).addresses.Nodup := by
  apply no_frame_twice
  rw [show oneRegionMap.filter (fun d => d.memory_type.is_usable) = oneRegionMap from rfl]
  simp [oneRegionMap]

/-- C2: over a memory map whose descriptors have 4096-aligned physical
addresses, every frame the allocator yields is 4096-aligned and lies inside
the half-open range of some usable descriptor of the map. -/
theorem frames_within_usable (m : MemoryMap)
    (hal : ∀ d ∈ m, d.physical_address % 4096 = 0) :
    ∀ f ∈ (PageTableFrameAllocator.new m).addresses,
      f % 4096 = 0 ∧ ∃ d ∈ m, d.memory_type.is_usable = true ∧
        d.physical_address ≤ f ∧ f < d.physical_address + d.size * 4096 := by
  intro f hf
  have hf2 : f ∈ usableFrames m := hf
  rw [usableFrames_eq] at hf2
  obtain ⟨d, hd, hfd⟩ := List.mem_flatMap.1 hf2
  obtain ⟨k, hk, hx⟩ := List.mem_map.1 hfd
  rw [List.mem_range] at hk
  obtain ⟨hdm, hdu⟩ := List.mem_filter.1 hd
  have hal2 := hal d hdm
  refine ⟨by omega, d, hdm, by simpa using hdu, by omega, by omega⟩

/-- C2 witness: the frame `0x1000` of the one-region map. -/
theorem frames_within_usable_witness :
    4096 % 4096 = 0 ∧ ∃ d ∈ oneRegionMap, d.memory_type.is_usable = true ∧
      d.physical_address ≤ 4096 ∧ 4096 < d.physical_address + d.size * 4096 :=
  frames_within_usable oneRegionMap (by decide) 4096 (by decide)

/-- C3: `is_usable` returns true exactly on `Conventional` and
`BootServicesCode`; on every other enumerated memory type it returns
false. -/
theorem is_usable_iff (t : MemoryType) :
    t.is_usable = true ↔
      (t = MemoryType.Conventional ∨ t = MemoryType.BootServicesCode) := by
  cases t <;> decide

/-- C4 counterexample: on a fresh allocator over `oneRegionMap`,
`allocate_size 1` draws no frame at all and returns `some (0, 0)` — the
placeholder frame containing address 0 with count 0 — although
`⌈1/4096⌉ = 1`, so the claimed ceiling count of drawn frames is wrong. -/
theorem allocate_size_ceil_cex :
    (allocate_size (PageTableFrameAllocator.new oneRegionMap) 1).1 = some (0, 0) ∧
    (allocate_size (PageTableFrameAllocator.new oneRegionMap) 1).2 =
      PageTableFrameAllocator.new oneRegionMap ∧
    (1 + 4095) / 4096 = 1 ∧ (0 : Nat) ≠ 1 := by decide

/-- C4 (amended): `allocate_size(size)` draws exactly `size / 4096`
(floor) frames by repeated `allocate_frame` calls; when enough frames
remain it returns `some (F, size / 4096)` where `F` is the first frame
drawn (the placeholder frame containing address 0 when the count is 0) and
the allocator has advanced by exactly those frames; when an underlying
call fails partway the whole operation returns `none`. -/
theorem allocate_size_floor_spec (a : PageTableFrameAllocator) (size : Nat) :
    (size / 4096 ≤ a.addresses.length →
      allocate_size a size =
        (some ((frameSeq a (size / 4096)).headD (containing_address 0), size / 4096),
         drain a (size / 4096))) ∧
    (a.addresses.length < size / 4096 → (allocate_size a size).1 = none) :=
  ⟨allocate_size_enough a size, allocate_size_short a size⟩

/-- C4 witness: a successful two-page allocation and a failing three-page
allocation on concrete maps. -/
theorem allocate_size_floor_spec_witness :
    allocate_size (PageTableFrameAllocator.new oneRegionMap) 8192 =
      (some ((frameSeq (PageTableFrameAllocator.new oneRegionMap) (8192 / 4096)).headD
          (containing_address 0), 8192 / 4096),
       drain (PageTableFrameAllocator.new oneRegionMap) (8192 / 4096)) ∧
    (allocate_size (PageTableFrameAllocator.new twoRegionMap) 12288).1 = none :=
  ⟨(allocate_size_floor_spec (PageTableFrameAllocator.new oneRegionMap) 8192).1 (by decide),
   (allocate_size_floor_spec (PageTableFrameAllocator.new twoRegionMap) 12288).2 (by decide)⟩

/-- C5 counterexample: over `twoRegionMap` (two usable one-page regions at
`0x1000` and `0x5000`), `allocate_size (2*4096)` returns `(0x1000, 2)`, but
the next two `next_frame` values are `0x1000, 0x5000`, not the arithmetic
progression `0x1000, 0x2000` the claim asserts. -/
theorem allocate_region_progression_cex :
    (allocate_size (PageTableFrameAllocator.new twoRegionMap) (2 * 4096)).1 =
      some (4096, 2) ∧
    frameSeq (PageTableFrameAllocator.new twoRegionMap) 2 = [4096, 20480] ∧
    [4096, 4096 + 4096] ≠ [4096, 20480] := by decide

/-- C5 (amended): for `n ≥ 1` with `n` frames remaining,
`allocate_size (n*4096)` returns `(F, n)` where `F` is the first of the
next `n` values individual `next_frame` calls would produce, and it
consumes exactly those `n` values (the addresses need not form an
arithmetic progression when they span discontiguous regions). -/
theorem allocate_region_next_frames (a : PageTableFrameAllocator) (n : Nat)
    (h1 : 1 ≤ n) (h2 : n ≤ a.addresses.length) :
    ∃ F tl, frameSeq a n = F :: tl ∧
      (allocate_size a (n * 4096)).1 = some (F, n) ∧
      (allocate_size a (n * 4096)).2 = drain a n := by
  obtain ⟨n2, rfl⟩ : ∃ n2, n = n2 + 1 := ⟨n - 1, by omega⟩
  have hn : (n2 + 1) * 4096 / 4096 = n2 + 1 := Nat.mul_div_cancel _ (by norm_num)
  have h3 : (n2 + 1) * 4096 / 4096 ≤ a.addresses.length := by rw [hn]; exact h2
  have he := allocate_size_enough a ((n2 + 1) * 4096) h3
  rw [hn] at he
  obtain ⟨F, tl, ha, _⟩ := allocLoop_first (n2 + 1) a (containing_address 0)
    (by omega) h2
  refine ⟨F, tl.take n2, ?_, ?_, ?_⟩
  · rw [frameSeq_eq, ha]
    rfl
  · rw [he]
    show some ((frameSeq a (n2 + 1)).headD (containing_address 0), n2 + 1) =
      some (F, n2 + 1)
    rw [frameSeq_eq, ha]
    rfl
  · rw [he]

/-- C5 witness: a two-page allocation over the one-region map. -/
theorem allocate_region_next_frames_witness :
    ∃ F tl, frameSeq (PageTableFrameAllocator.new oneRegionMap) 2 = F :: tl ∧
      (allocate_size (PageTableFrameAllocator.new oneRegionMap) (2 * 4096)).1 =
        some (F, 2) ∧
      (allocate_size (PageTableFrameAllocator.new oneRegionMap) (2 * 4096)).2 =
        drain (PageTableFrameAllocator.new oneRegionMap) 2 :=
  allocate_region_next_frames (PageTableFrameAllocator.new oneRegionMap) 2
    (by decide) (by decide)

/-- C6: over any memory map, the `S / 4096` frames the allocator can issue
total exactly `S = totalUsableBytes` bytes; after they have been issued
`allocate_frame` returns `none`, and requesting `S + 4096` bytes through
`allocate_size` on a fresh allocator returns `none` — exhaustion is an
ordinary `none`, never a panic. -/
theorem allocator_exhaustion (m : MemoryMap) :
    (frameSeq (PageTableFrameAllocator.new m) (totalUsableBytes m / 4096)).length * 4096 =
      totalUsableBytes m ∧
    (allocate_frame (drain (PageTableFrameAllocator.new m)
        (totalUsableBytes m / 4096))).1 = none ∧
    (allocate_size (PageTableFrameAllocator.new m) (totalUsableBytes m + 4096)).1 =
      none := by
  have hlen : (usableFrames m).length * 4096 = totalUsableBytes m :=
    usableFrames_length m
  have hq : totalUsableBytes m / 4096 = (usableFrames m).length := by omega
  refine ⟨?_, ?_, ?_⟩
  · rw [frameSeq_eq, hq]
    show ((usableFrames m).take (usableFrames m).length).length * 4096 = _
    rw [List.take_length]
    exact hlen
  · rw [drain_eq, hq]
    show (allocate_frame { PageTableFrameAllocator.new m with
      addresses := (usableFrames m).drop (usableFrames m).length }).1 = none
    rw [List.drop_length]
    rfl
  · apply allocate_size_short
    show (usableFrames m).length < (totalUsableBytes m + 4096) / 4096
    omega

/-- C7: `get_memory_map` first queries the firmware for the memory map;
only on a zero status does it call `exit_boot_services`, exactly once, with
the image handle and the map key from that same fetch; a non-zero status
from either firmware call is fatal (modelled `none`, no retry); on success
it returns the captured snapshot and the descriptor version. -/
theorem get_memory_map_spec (fw : Firmware) (image_handle : Nat) :
    (fw.getMemoryMapStatus ≠ 0 →
      get_memory_map fw image_handle = (none, [FirmwareCall.getMemoryMapCall])) ∧
    (fw.getMemoryMapStatus = 0 →
      (get_memory_map fw image_handle).2 =
        [FirmwareCall.getMemoryMapCall,
         FirmwareCall.exitBootServicesCall image_handle fw.mapKey] ∧
      (fw.exitBootServicesStatus image_handle fw.mapKey = 0 →
        (get_memory_map fw image_handle).1 =
          some (fw.descriptors, fw.descriptorVersion)) ∧
      (fw.exitBootServicesStatus image_handle fw.mapKey ≠ 0 →
        (get_memory_map fw image_handle).1 = none)) := by
  unfold get_memory_map
  by_cases h1 : fw.getMemoryMapStatus = 0 <;>
    by_cases h2 : fw.exitBootServicesStatus image_handle fw.mapKey = 0 <;>
      simp [h1, h2]

/-- C7 witness: a firmware environment in which both calls succeed. -/
theorem get_memory_map_spec_witness :
    (get_memory_map fwOk 7).2 =
      [FirmwareCall.getMemoryMapCall, FirmwareCall.exitBootServicesCall 7 42] ∧
    (get_memory_map fwOk 7).1 = some (oneRegionMap, 1) :=
  ⟨((get_memory_map_spec fwOk 7).2 rfl).1,
   ((get_memory_map_spec fwOk 7).2 rfl).2.1 rfl⟩

/-- C8: a terminator descriptor (address 0, virtual address 0, size 0)
contributes no frame, wherever it sits in the buffer: the allocator's
stream over a map containing it equals the stream over the map without
it. -/
theorem terminator_contributes_nothing (pre post : MemoryMap)
    (d : MemoryDescriptor) (h1 : d.physical_address = 0)
    (h2 : d.virtual_address = 0) (h3 : d.size = 0) :
    (PageTableFrameAllocator.new (pre ++ d :: post)).addresses =
      (PageTableFrameAllocator.new (pre ++ post)).addresses := by
  show usableFrames (pre ++ d :: post) = usableFrames (pre ++ post)
  rw [usableFrames_eq, usableFrames_eq, List.filter_append, List.filter_append,
    List.filter_cons]
  cases hu : d.memory_type.is_usable
  · simp [hu]
  · simp [hu, h3, List.flatMap_append, List.flatMap_cons]

/-- C8 witness: a terminator appended after the one-region map. -/
theorem terminator_contributes_nothing_witness :
    (PageTableFrameAllocator.new
        (oneRegionMap ++ ⟨MemoryType.Conventional, 0, 0, 0, 0, 0⟩ :: [])).addresses =
      (PageTableFrameAllocator.new (oneRegionMap ++ [])).addresses :=
  terminator_contributes_nothing oneRegionMap []
    ⟨MemoryType.Conventional, 0, 0, 0, 0, 0⟩ rfl rfl rfl

/-- C9: the address-space bootstrap installs the duplicate's address in the
control register, records that same address in the `KERNEL_MAP` slot, copies
exactly the 512 root entries of the previously active table into the
duplicate, and touches no other table (lower levels stay shared). -/
theorem bootstrap_spec (s : MachineState) (newAddr : Nat) :
    (bootstrap_address_space s newAddr).cr3 = newAddr ∧
    (bootstrap_address_space s newAddr).kernel_map =
      (bootstrap_address_space s newAddr).cr3 ∧
    ((bootstrap_address_space s newAddr).tables newAddr).entries =
      (s.tables s.cr3).entries ∧
    (∀ a : Nat, a ≠ newAddr →
      (bootstrap_address_space s newAddr).tables a = s.tables a) := by
  refine ⟨rfl, rfl, ?_, ?_⟩
  · simp [bootstrap_address_space]
  · intro a ha
    simp [bootstrap_address_space, ha]

/-- C9 witness: the bootstrap on a concrete machine state. -/
theorem bootstrap_spec_witness :
    (bootstrap_address_space machineW 8192).kernel_map =
      (bootstrap_address_space machineW 8192).cr3 ∧
    (bootstrap_address_space machineW 8192).tables 4096 = machineW.tables 4096 :=
  ⟨(bootstrap_spec machineW 8192).2.1,
   (bootstrap_spec machineW 8192).2.2.2 4096 (by decide)⟩

/-- C10: a sub-page request (`size < 4096`, including 0) succeeds vacuously:
`allocate_size` returns `some (0, 0)` — the frame containing physical
address 0 and a count of 0 — and leaves the allocator unchanged. -/
theorem allocate_size_subpage (a : PageTableFrameAllocator) (size : Nat)
    (h : size < 4096) :
    allocate_size a size = (some (containing_address 0, 0), a) := by
  have hn : size / 4096 = 0 := Nat.div_eq_of_lt h
  unfold allocate_size
  rw [hn]
  rfl

/-- C10 witness: a 5-byte request on a fresh allocator. -/
theorem allocate_size_subpage_witness :
    allocate_size (PageTableFrameAllocator.new oneRegionMap) 5 =
      (some (containing_address 0, 0), PageTableFrameAllocator.new oneRegionMap) :=
  allocate_size_subpage (PageTableFrameAllocator.new oneRegionMap) 5 (by decide)

end RustKernel
